import Mathlib

set_option linter.unusedVariables false

/-! Shallow embedding of the movie search core of `src/lib/data-utils.ts`
(`searchMovies`, `filterMovies`, `parseUserQuery`) over the `Movie` record
type declared in `src/lib/db-service.ts`.

JavaScript strings are modelled through their character lists (`String` in
Lean 4.14 is a structure wrapping `List Char`, so every operation below is
executable and kernel-reducible).  JavaScript numbers are modelled as `Int`:
the matching core observes numeric record fields only through `String(x)`
and through JavaScript truthiness, both of which the `JsVal` type captures.
Case conversion and whitespace are modelled over the ASCII range. -/

/-- The field names of the `Movie` interface (`keyof MovieData`). -/
inductive MovieField where
  | movie_id
  | movie_name
  | movie_duration
  | plot_keyword
  | language
  | country
  | budget
  | release_year
  | imdb_score
  | movie_certification
  | genre
  | producer_name
  | award_name
  | director_name
  | actors
  | reviewer_name
  | songs
  | poster_url
deriving DecidableEq, Fintype

/-- All eighteen fields of the `Movie` interface, in declaration order. -/
def allFields : List MovieField :=
  [.movie_id, .movie_name, .movie_duration, .plot_keyword, .language,
   .country, .budget, .release_year, .imdb_score, .movie_certification,
   .genre, .producer_name, .award_name, .director_name, .actors,
   .reviewer_name, .songs, .poster_url]

/-- The `Movie` interface of `src/lib/db-service.ts`.  `number` fields are
modelled as `Int`; `poster_url?` is the one optional field. -/
structure Movie where
  movie_id : String
  movie_name : String
  movie_duration : Int
  plot_keyword : String
  language : String
  country : String
  budget : Int
  release_year : Int
  imdb_score : Int
  movie_certification : String
  genre : String
  producer_name : String
  award_name : String
  director_name : String
  actors : String
  reviewer_name : String
  songs : String
  poster_url : Option String := none
deriving DecidableEq

/-- A JavaScript value as observed by the matching core: a string, a number,
or `undefined` (for an absent optional field). -/
inductive JsVal where
  | str (s : String)
  | num (n : Int)
  | jsUndefined
deriving DecidableEq

/-- JavaScript truthiness test (`!movieValue`): `""`, `0` and `undefined`
are falsy. -/
def JsVal.falsy : JsVal → Bool
  | .str s => s == ""
  | .num n => n == 0
  | .jsUndefined => true

/-- JavaScript `String(x)` on the values the core can encounter. -/
def JsVal.toStr : JsVal → String
  | .str s => s
  | .num n => toString n
  | .jsUndefined => "undefined"

/-- Dynamic field access `movie[key as keyof MovieData]`. -/
def Movie.get (m : Movie) : MovieField → JsVal
  | .movie_id => .str m.movie_id
  | .movie_name => .str m.movie_name
  | .movie_duration => .num m.movie_duration
  | .plot_keyword => .str m.plot_keyword
  | .language => .str m.language
  | .country => .str m.country
  | .budget => .num m.budget
  | .release_year => .num m.release_year
  | .imdb_score => .num m.imdb_score
  | .movie_certification => .str m.movie_certification
  | .genre => .str m.genre
  | .producer_name => .str m.producer_name
  | .award_name => .str m.award_name
  | .director_name => .str m.director_name
  | .actors => .str m.actors
  | .reviewer_name => .str m.reviewer_name
  | .songs => .str m.songs
  | .poster_url =>
    match m.poster_url with
    | some s => .str s
    | none => .jsUndefined

/-- ASCII whitespace as matched by the JavaScript `\s` class and `trim()`
(tab, line feed, vertical tab, form feed, carriage return, space). -/
def wsChar (c : Char) : Bool :=
  c.toNat == 32 || (9 ≤ c.toNat && c.toNat ≤ 13)

/-- `toLowerCase()` over character lists. -/
def lowerL (l : List Char) : List Char := l.map Char.toLower

/-- JavaScript `trim()` over character lists. -/
def trimL (l : List Char) : List Char :=
  ((l.dropWhile wsChar).reverse.dropWhile wsChar).reverse

/-- JavaScript `s.includes(v)`: `v` occurs as a contiguous substring of `s`
(the empty string occurs in every string). -/
def includesL (s v : List Char) : Bool :=
  match s with
  | [] => v.isEmpty
  | _ :: rest => v.isPrefixOf s || includesL rest v

/-- JavaScript `s.split("|")` for a one-character separator:
`"" ↦ [""]`, `"a||b" ↦ ["a", "", "b"]`. -/
def splitPipe : List Char → List (List Char)
  | [] => [[]]
  | c :: rest =>
    if c = '|' then [] :: splitPipe rest
    else
      match splitPipe rest with
      | s :: ss => (c :: s) :: ss
      | [] => [[c]]

/-- A `Partial<Record<keyof MovieData, string>>`: field name to expected
substring, `none` meaning the key is absent. -/
abbrev FilterSet := MovieField → Option String

/-- JavaScript truthiness of an optional string entry of a filter object:
present and non-empty. -/
def optTruthy : Option String → Bool
  | none => false
  | some s => !(s == "")

/-- One filter-entry check of `filterMovies` (data-utils.ts lines 77-90):
a falsy (empty) expected value always matches, an `undefined` field value
never matches, `genre`/`plot_keyword` match if some pipe-delimited segment
of the lowercased value contains the lowercased filter value, any other
field matches by stringified case-insensitive substring containment. -/
def matchesFilter (m : Movie) (f : MovieField) (v : String) : Bool :=
  if v == "" then true
  else
    match m.get f with
    | .jsUndefined => false
    | mv =>
      if f == .genre || f == .plot_keyword then
        (splitPipe (lowerL mv.toStr.toList)).any
          (fun seg => includesL seg (lowerL v.toList))
      else includesL (lowerL mv.toStr.toList) (lowerL v.toList)

/-- The conjunction over all present filter entries
(`Object.entries(filters).every(...)`). -/
def matchesAllFilters (m : Movie) (fs : FilterSet) : Bool :=
  allFields.all fun f =>
    match fs f with
    | none => true
    | some v => matchesFilter m f v

/-- `filterMovies` of data-utils.ts lines 75-92. -/
def filterMovies (movies : List Movie) (fs : FilterSet) : List Movie :=
  movies.filter fun m => matchesAllFilters m fs

/-- One filter-entry check of the actor branch of `searchMovies`
(data-utils.ts lines 33-45).  It differs from `matchesFilter` in rejecting
any falsy field value (`if (!movieValue) return false`), not only
`undefined` ones. -/
def matchesFilterActor (m : Movie) (f : MovieField) (v : String) : Bool :=
  if v == "" then true
  else if (m.get f).falsy then false
  else
    if f == .genre || f == .plot_keyword then
      (splitPipe (lowerL (m.get f).toStr.toList)).any
        (fun seg => includesL seg (lowerL v.toList))
    else includesL (lowerL (m.get f).toStr.toList) (lowerL v.toList)

/-- Minimal regular-expression syntax, sufficient for the eight patterns of
`parseUserQuery`.  Literals match case-insensitively (every source pattern
carries the `i` flag); quantified character classes are greedy; at most one
capture group occurs per pattern. -/
inductive RE where
  | eps
  | lit (s : List Char)
  | cls (p : Char → Bool)
  | seq (a b : RE)
  | alt (a b : RE)
  | opt (a : RE)
  | starCls (p : Char → Bool)
  | plusCls (p : Char → Bool)
  | repCls (n : Nat) (p : Char → Bool)
  | grp (a : RE)

/-- Strip a case-insensitive literal from the front of the input. -/
def stripLitCI : List Char → List Char → Option (List Char)
  | [], cs => some cs
  | _ :: _, [] => none
  | l :: ls, c :: cs =>
    if l.toLower == c.toLower then stripLitCI ls cs else none

/-- Length of the maximal leading run of characters in the class. -/
def maxRun (p : Char → Bool) (cs : List Char) : Nat :=
  (cs.takeWhile p).length

/-- All ways the pattern can match a prefix of the input, in JavaScript
backtracking priority order (alternation tried left first, quantifiers
greedy, `?` tries its body first).  Each entry pairs the remaining input
with the capture of the single group, when one was traversed. -/
def mAll : RE → List Char → List (List Char × Option (List Char))
  | .eps, cs => [(cs, none)]
  | .lit l, cs =>
    match stripLitCI l cs with
    | some rest => [(rest, none)]
    | none => []
  | .cls p, cs =>
    match cs with
    | [] => []
    | c :: rest => if p c then [(rest, none)] else []
  | .seq a b, cs =>
    (mAll a cs).flatMap fun e =>
      (mAll b e.1).map fun e2 => (e2.1, e.2 <|> e2.2)
  | .alt a b, cs => mAll a cs ++ mAll b cs
  | .opt a, cs => mAll a cs ++ [(cs, none)]
  | .starCls p, cs =>
    (List.range (maxRun p cs + 1)).map fun i => (cs.drop (maxRun p cs - i), none)
  | .plusCls p, cs =>
    (List.range (maxRun p cs)).map fun i => (cs.drop (maxRun p cs - i), none)
  | .repCls n p, cs =>
    if n ≤ maxRun p cs then [(cs.drop n, none)] else []
  | .grp a, cs =>
    (mAll a cs).map fun e => (e.1, some (cs.take (cs.length - e.1.length)))

/-- JavaScript `String.prototype.match` without the `g` flag: try the
pattern at every start position from the left; at the first position that
matches, report the highest-priority match's group-1 capture. -/
def searchFrom (r : RE) : List Char → Option (Option (List Char))
  | [] =>
    match (mAll r []).head? with
    | some e => some e.2
    | none => none
  | c :: rest =>
    match (mAll r (c :: rest)).head? with
    | some e => some e.2
    | none => searchFrom r rest

/-- The class `[a-zA-Z\s]` of the capture groups. -/
def alphaWs (c : Char) : Bool := c.isAlpha || wsChar c

/-- The class `[a-zA-Z0-9\s]` of the title capture group. -/
def alnumWs (c : Char) : Bool := c.isAlphanum || wsChar c

/-- The class `["']` of the optional quote characters. -/
def quoteCh (c : Char) : Bool := c == '"' || c == '\''

/-- `\s*` -/
def wsStar : RE := .starCls wsChar

/-- `["']?` -/
def quoteOpt : RE := .opt (.cls quoteCh)

/-- Alternation of case-insensitive literals, tried in order. -/
def reAlts : List (List Char) → RE
  | [] => .lit []
  | [s] => .lit s
  | s :: rest => .alt (.lit s) (reAlts rest)

/-- `/genre(?:s)?\s*(?:is|are|=|:)?\s*["']?([a-zA-Z\s]+)["']?/i` -/
def genreRE : RE :=
  .seq (.lit "genre".toList) (.seq (.opt (.lit "s".toList))
    (.seq wsStar (.seq (.opt (reAlts ["is".toList, "are".toList, "=".toList, ":".toList]))
      (.seq wsStar (.seq quoteOpt (.seq (.grp (.plusCls alphaWs)) quoteOpt))))))

/-- `/(?:movie|film|title)\s*(?:name|called|titled|is|=|:)?\s*["']?([a-zA-Z0-9\s]+)["']?/i` -/
def titleRE : RE :=
  .seq (reAlts ["movie".toList, "film".toList, "title".toList])
    (.seq wsStar (.seq (.opt (reAlts ["name".toList, "called".toList,
        "titled".toList, "is".toList, "=".toList, ":".toList]))
      (.seq wsStar (.seq quoteOpt (.seq (.grp (.plusCls alnumWs)) quoteOpt)))))

/-- `/director\s*(?:is|=|:)?\s*["']?([a-zA-Z\s]+)["']?/i` -/
def directorRE : RE :=
  .seq (.lit "director".toList)
    (.seq wsStar (.seq (.opt (reAlts ["is".toList, "=".toList, ":".toList]))
      (.seq wsStar (.seq quoteOpt (.seq (.grp (.plusCls alphaWs)) quoteOpt)))))

/-- `/(?:actor|star|cast)\s*(?:is|=|:)?\s*["']?([a-zA-Z\s]+)["']?/i` -/
def actorRE : RE :=
  .seq (reAlts ["actor".toList, "star".toList, "cast".toList])
    (.seq wsStar (.seq (.opt (reAlts ["is".toList, "=".toList, ":".toList]))
      (.seq wsStar (.seq quoteOpt (.seq (.grp (.plusCls alphaWs)) quoteOpt)))))

/-- The class `\d` = `[0-9]`. -/
def digitCh (c : Char) : Bool := 48 ≤ c.toNat && c.toNat ≤ 57

/-- `/(?:year|released|from)\s*(?:in|=|:)?\s*(\d{4})/i` -/
def yearRE : RE :=
  .seq (reAlts ["year".toList, "released".toList, "from".toList])
    (.seq wsStar (.seq (.opt (reAlts ["in".toList, "=".toList, ":".toList]))
      (.seq wsStar (.grp (.repCls 4 digitCh)))))

/-- `/(?:country|from)\s*(?:is|=|:)?\s*["']?([a-zA-Z\s]+)["']?/i` -/
def countryRE : RE :=
  .seq (reAlts ["country".toList, "from".toList])
    (.seq wsStar (.seq (.opt (reAlts ["is".toList, "=".toList, ":".toList]))
      (.seq wsStar (.seq quoteOpt (.seq (.grp (.plusCls alphaWs)) quoteOpt)))))

/-- `/(?:language|in)\s*(?:is|=|:)?\s*["']?([a-zA-Z\s]+)["']?/i` -/
def languageRE : RE :=
  .seq (reAlts ["language".toList, "in".toList])
    (.seq wsStar (.seq (.opt (reAlts ["is".toList, "=".toList, ":".toList]))
      (.seq wsStar (.seq quoteOpt (.seq (.grp (.plusCls alphaWs)) quoteOpt)))))

/-- `/(?:keyword|about|plot|theme)\s*(?:is|=|:)?\s*["']?([a-zA-Z\s]+)["']?/i` -/
def keywordRE : RE :=
  .seq (reAlts ["keyword".toList, "about".toList, "plot".toList, "theme".toList])
    (.seq wsStar (.seq (.opt (reAlts ["is".toList, "=".toList, ":".toList]))
      (.seq wsStar (.seq quoteOpt (.seq (.grp (.plusCls alphaWs)) quoteOpt)))))

/-- Shared shape of the eight extractor steps of `parseUserQuery`: run the
pattern, and if it matched with a truthy (non-empty) group-1 capture
(`if (m && m[1])`), store the trimmed capture. -/
def runExtractor (r : RE) (q : String) : Option String :=
  match searchFrom r q.toList with
  | some (some cap) => if cap.isEmpty then none else some (String.mk (trimL cap))
  | some none => none
  | none => none

/-- The fixed genre vocabulary of the fallback branch. -/
def commonGenres : List String :=
  ["action", "comedy", "drama", "horror", "sci-fi", "thriller", "romance",
   "adventure", "fantasy"]

/-- `parseUserQuery` of data-utils.ts lines 94-170: the eight independent
extractors, then the fallback when none of them produced a field and the
trimmed query is non-empty. -/
def parseUserQuery (q : String) : FilterSet :=
  let g := runExtractor genreRE q
  let t := runExtractor titleRE q
  let d := runExtractor directorRE q
  let a := runExtractor actorRE q
  let y := runExtractor yearRE q
  let c := runExtractor countryRE q
  let lng := runExtractor languageRE q
  let k := runExtractor keywordRE q
  let noneFound := g.isNone && t.isNone && d.isNone && a.isNone &&
    y.isNone && c.isNone && lng.isNone && k.isNone
  let searchTerm := String.mk (trimL q.toList)
  let fallback := noneFound && !(searchTerm == "")
  let vocabHit := commonGenres.any fun s => includesL (lowerL searchTerm.toList) s.toList
  fun f =>
    match f with
    | .genre => if fallback && vocabHit then some searchTerm else g
    | .movie_name => if fallback && !vocabHit then some searchTerm else t
    | .director_name => d
    | .actors => a
    | .release_year => y
    | .country => c
    | .language => lng
    | .plot_keyword => k
    | _ => none

/-- Case-insensitive title equality used by the exact-title shortcut. -/
def nameEqCI (m : Movie) (q : String) : Bool :=
  lowerL m.movie_name.toList == lowerL q.toList

/-- `Object.keys(filters).length`. -/
def countKeys (fs : FilterSet) : Nat :=
  (allFields.filter fun f => (fs f).isSome).length

/-- `delete filters[f]`. -/
def removeKey (fs : FilterSet) (f : MovieField) : FilterSet :=
  fun g => if g == f then none else fs g

/-- The relevance comparator of the title-only branch (data-utils.ts lines
59-69): exact matches first, then ascending title length. -/
def titleCmp (v : String) (a b : Movie) : Int :=
  let aExact := lowerL a.movie_name.toList == lowerL v.toList
  let bExact := lowerL b.movie_name.toList == lowerL v.toList
  if aExact && !bExact then -1
  else if !aExact && bExact then 1
  else (a.movie_name.length : Int) - (b.movie_name.length : Int)

/-- The non-strict order induced by `titleCmp`; `Array.prototype.sort` with
a consistent comparator is a stable sort by this order. -/
def titleLe (v : String) (a b : Movie) : Bool := titleCmp v a b ≤ 0

/-- `searchMovies` of data-utils.ts lines 16-73: exact-title shortcut, then
the actor branch, the relaxed title branch, and the general path. -/
def searchMovies (movies : List Movie) (q : String) : List Movie :=
  match movies.find? (fun m => nameEqCI m q) with
  | some m => [m]
  | none =>
    let filters := parseUserQuery q
    if optTruthy (filters .actors) then
      let actorName := (filters .actors).getD ""
      let rest := removeKey filters .actors
      movies.filter fun m =>
        (allFields.all fun f =>
          match rest f with
          | none => true
          | some v => matchesFilterActor m f v) &&
        includesL (lowerL m.actors.toList) (lowerL actorName.toList)
    else if optTruthy (filters .movie_name) && countKeys filters == 1 then
      let v := (filters .movie_name).getD ""
      (movies.filter fun m =>
        includesL (lowerL m.movie_name.toList) (lowerL v.toList)).mergeSort
        (fun a b => titleLe v a b)
    else filterMovies movies filters

/-- The Field Matching Rule, stated from the specification's words: for a
field `f` with expected substring `v`, an empty `v` always matches; if `f`
is a multi-value field (`genre`, `plot_keyword`) the record's value is
split on the pipe delimiter and some element must case-insensitively
contain `v`; otherwise the record's stringified value must
case-insensitively contain `v`; a field absent from the record (an
`undefined` value) never matches. -/
def FieldMatchRule (m : Movie) (f : MovieField) (v : String) : Prop :=
  v = "" ∨
    (m.get f ≠ .jsUndefined ∧
      (if f = .genre ∨ f = .plot_keyword then
        ∃ seg ∈ splitPipe (lowerL (m.get f).toStr.toList),
          includesL seg (lowerL v.toList) = true
      else includesL (lowerL (m.get f).toStr.toList) (lowerL v.toList) = true))

/-- A record satisfies every present entry of a filter set per the Field
Matching Rule. -/
def SpecMatchesAll (m : Movie) (fs : FilterSet) : Prop :=
  ∀ f v, fs f = some v → FieldMatchRule m f v

/-- The one-entry filter set. -/
def singletonFS (f : MovieField) (v : String) : FilterSet :=
  fun g => if g = f then some v else none

/-- Left-biased union of two filter sets; on disjoint key sets it holds
every entry of both. -/
def unionFS (F1 F2 : FilterSet) : FilterSet :=
  fun f =>
    match F1 f with
    | some v => some v
    | none => F2 f

/-- Match class of the title-only ranking: `0` for a case-insensitive exact
title match, `1` for a partial match. -/
def titleRank (v : String) (a : Movie) : Nat :=
  if lowerL a.movie_name.toList = lowerL v.toList then 0 else 1

/-- The order the specification claims for the title-only branch: exact
matches strictly before partial ones, ties by ascending title length. -/
def titleOrdered (v : String) (a b : Movie) : Prop :=
  titleRank v a < titleRank v b ∨
    (titleRank v a = titleRank v b ∧ a.movie_name.length ≤ b.movie_name.length)

/-- Patterns containing no capture group. -/
def grpFree : RE → Bool
  | .eps => true
  | .lit _ => true
  | .cls _ => true
  | .seq a b => grpFree a && grpFree b
  | .alt a b => grpFree a && grpFree b
  | .opt a => grpFree a
  | .starCls _ => true
  | .plusCls _ => true
  | .repCls _ _ => true
  | .grp _ => false

/-- A concrete record for witnesses and counterexamples. -/
def sampleMovie (name acts g : String) : Movie :=
  { movie_id := name, movie_name := name, movie_duration := 120,
    plot_keyword := "twist", language := "English", country := "USA",
    budget := 1000, release_year := 2001, imdb_score := 8,
    movie_certification := "PG", genre := g, producer_name := "Prod",
    award_name := "Best", director_name := "Dir", actors := acts,
    reviewer_name := "Rev", songs := "Song" }

theorem mem_allFields (f : MovieField) : f ∈ allFields := by
  cases f <;> simp [allFields]

theorem includesL_nil (s : List Char) : includesL s [] = true := by
  cases s <;> simp [includesL, List.isPrefixOf]

theorem isPrefixOf_length : ∀ {l1 l2 : List Char}, l1.isPrefixOf l2 = true →
    l1.length ≤ l2.length
  | [], _, _ => by simp
  | _ :: _, [], h => by simp [List.isPrefixOf] at h
  | a :: as, b :: bs, h => by
    simp only [List.isPrefixOf, Bool.and_eq_true] at h
    simpa using isPrefixOf_length h.2

theorem includesL_length : ∀ {s v : List Char}, includesL s v = true →
    v.length ≤ s.length
  | [], v, h => by
    simp [includesL, List.isEmpty_iff] at h
    simp [h]
  | c :: rest, v, h => by
    simp only [includesL, Bool.or_eq_true] at h
    rcases h with h | h
    · exact isPrefixOf_length h
    · exact Nat.le_trans (includesL_length h) (by simp)

theorem matchesFilter_empty (m : Movie) (f : MovieField) :
    matchesFilter m f "" = true := rfl

theorem matchesFilter_iff_rule (m : Movie) (f : MovieField) (v : String) :
    matchesFilter m f v = true ↔ FieldMatchRule m f v := by
  unfold matchesFilter FieldMatchRule
  by_cases hv : v = ""
  · subst hv
    simp
  · rw [if_neg (by simp [hv])]
    by_cases hf : f = MovieField.genre ∨ f = MovieField.plot_keyword
    · have hfb : (f == MovieField.genre || f == MovieField.plot_keyword) = true := by
        rcases hf with h | h <;> simp [h]
      rw [if_pos hf]
      cases hget : m.get f with
      | jsUndefined => simp [hv]
      | str s => simp [hfb, hv, List.any_eq_true]
      | num n => simp [hfb, hv, List.any_eq_true]
    · have hfb : (f == MovieField.genre || f == MovieField.plot_keyword) = false := by
        simp only [Bool.or_eq_false_iff, beq_eq_false_iff_ne, ne_eq]
        exact ⟨fun h => hf (Or.inl h), fun h => hf (Or.inr h)⟩
      rw [if_neg hf]
      cases hget : m.get f with
      | jsUndefined => simp [hv]
      | str s => simp [hfb, hv]
      | num n => simp [hfb, hv]

theorem matchesAllFilters_iff (m : Movie) (fs : FilterSet) :
    matchesAllFilters m fs = true ↔ SpecMatchesAll m fs := by
  unfold matchesAllFilters SpecMatchesAll
  rw [List.all_eq_true]
  constructor
  · intro h f v hfv
    have hh := h f (mem_allFields f)
    rw [hfv] at hh
    exact (matchesFilter_iff_rule m f v).1 hh
  · intro h f _
    cases hfv : fs f with
    | none => rfl
    | some v => exact (matchesFilter_iff_rule m f v).2 (h f v hfv)

theorem list_all_congr {α : Type} {p q : α → Bool} :
    ∀ {l : List α}, (∀ x ∈ l, p x = q x) → l.all p = l.all q
  | [], _ => rfl
  | x :: xs, h => by
    simp only [List.all_cons]
    rw [h x (by simp), list_all_congr fun y hy => h y (by simp [hy])]

/-- C3: `filterMovies` returns exactly the records of the input that satisfy
every filter entry per the Field Matching Rule, in input order; in
particular a record with genre `"Action|Crime|Drama"` matches the filters
`genre = "crime"` and `genre = "dram"`. -/
theorem filterMovies_correct (M : List Movie) (F : FilterSet) :
    (∀ m, m ∈ filterMovies M F ↔ m ∈ M ∧ SpecMatchesAll m F) ∧
    (filterMovies M F).Sublist M ∧
    filterMovies [sampleMovie "X" "" "Action|Crime|Drama"] (singletonFS .genre "crime")
      = [sampleMovie "X" "" "Action|Crime|Drama"] ∧
    filterMovies [sampleMovie "X" "" "Action|Crime|Drama"] (singletonFS .genre "dram")
      = [sampleMovie "X" "" "Action|Crime|Drama"] := by
  refine ⟨fun m => ?_, List.filter_sublist M, by decide, by decide⟩
  rw [filterMovies, List.mem_filter, matchesAllFilters_iff]

/-- C7: filtering by two filter sets with disjoint keys in sequence equals
a single filtering by their union. -/
theorem filterMovies_union (M : List Movie) (F1 F2 : FilterSet)
    (hd : ∀ f, F1 f = none ∨ F2 f = none) :
    filterMovies (filterMovies M F1) F2 = filterMovies M (unionFS F1 F2) := by
  unfold filterMovies
  rw [List.filter_filter]
  apply List.filter_congr
  intro m _
  rw [Bool.eq_iff_iff, Bool.and_eq_true, matchesAllFilters_iff, matchesAllFilters_iff,
    matchesAllFilters_iff]
  constructor
  · rintro ⟨h2, h1⟩ f v hfv
    unfold unionFS at hfv
    cases hF1 : F1 f with
    | some w =>
      rw [hF1] at hfv
      exact h1 f v (hF1.trans hfv)
    | none =>
      rw [hF1] at hfv
      exact h2 f v hfv
  · intro h
    constructor
    · intro f v hfv
      apply h f v
      unfold unionFS
      rcases hd f with h1 | h2
      · rw [h1]
        exact hfv
      · rw [h2] at hfv
        cases hfv
    · intro f v hfv
      apply h f v
      unfold unionFS
      rw [hfv]

theorem filterMovies_union_witness :
    filterMovies
        (filterMovies [sampleMovie "Heat" "Al Pacino" "Action|Crime",
          sampleMovie "Up" "Ed Asner" "Animation"] (singletonFS .genre "crime"))
        (singletonFS .actors "pacino")
      = filterMovies [sampleMovie "Heat" "Al Pacino" "Action|Crime",
          sampleMovie "Up" "Ed Asner" "Animation"]
          (unionFS (singletonFS .genre "crime") (singletonFS .actors "pacino")) :=
  filterMovies_union _ _ _ (by decide)

/-- C8: extending a filter set with an empty-string entry on a fresh field
filters nothing out. -/
theorem filterMovies_empty_entry (M : List Movie) (F : FilterSet) (f : MovieField)
    (h : F f = none) :
    filterMovies M (fun g => if g = f then some "" else F g) = filterMovies M F := by
  unfold filterMovies
  apply List.filter_congr
  intro m _
  unfold matchesAllFilters
  apply list_all_congr
  intro g _
  by_cases hg : g = f
  · subst hg
    have h1 : (fun g2 => if g2 = g then some "" else F g2) g = some "" := by simp
    rw [h1, h]
    exact matchesFilter_empty m g
  · have h1 : (fun g2 => if g2 = f then some "" else F g2) g = F g := by simp [hg]
    rw [h1]

theorem filterMovies_empty_entry_witness :
    filterMovies [sampleMovie "Heat" "Al Pacino" "Action|Crime"]
        (fun g => if g = MovieField.language then some ""
          else singletonFS .genre "crime" g)
      = filterMovies [sampleMovie "Heat" "Al Pacino" "Action|Crime"]
          (singletonFS .genre "crime") :=
  filterMovies_empty_entry _ _ _ (by decide)

/-- C9: the embedded `parseUserQuery` and `searchMovies` are total functions
of their arguments alone: equal inputs give equal outputs on any two calls. -/
theorem core_deterministic (M1 M2 : List Movie) (q1 q2 : String)
    (hq : q1 = q2) (hM : M1 = M2) :
    parseUserQuery q1 = parseUserQuery q2 ∧ searchMovies M1 q1 = searchMovies M2 q2 := by
  subst hq
  subst hM
  exact ⟨rfl, rfl⟩

theorem core_deterministic_witness :
    parseUserQuery "thriller" = parseUserQuery "thriller" ∧
    searchMovies [sampleMovie "Heat" "" ""] "thriller"
      = searchMovies [sampleMovie "Heat" "" ""] "thriller" :=
  core_deterministic _ _ _ _ rfl rfl

/-- C10: the extractor trigger words match as bare substrings, so
`parseUserQuery "Inception"` fires the language extractor on the leading
`"In"` and returns `{language: "ception"}`, not a title filter. -/
theorem parseUserQuery_inception :
    parseUserQuery "Inception" = singletonFS .language "ception" ∧
    parseUserQuery "Inception" ≠ singletonFS .movie_name "Inception" := by
  constructor
  · funext f
    cases f <;> decide
  · intro h
    exact absurd (congrFun h MovieField.language) (by decide)

theorem searchMovies_of_find (movies : List Movie) (q : String) (m : Movie)
    (h : movies.find? (fun x => nameEqCI x q) = some m) :
    searchMovies movies q = [m] := by
  unfold searchMovies
  rw [h]

/-- C1: when some record's title case-insensitively equals the whole query,
`searchMovies` returns exactly the singleton of the first such record. -/
theorem searchMovies_exact (pre post : List Movie) (q : String) (m : Movie)
    (hpre : ∀ x ∈ pre, lowerL x.movie_name.toList ≠ lowerL q.toList)
    (hm : lowerL m.movie_name.toList = lowerL q.toList) :
    searchMovies (pre ++ m :: post) q = [m] := by
  apply searchMovies_of_find
  rw [List.find?_eq_some]
  refine ⟨by simp only [nameEqCI, beq_iff_eq]; exact hm, pre, post, rfl, ?_⟩
  intro a ha
  have hb : (lowerL a.movie_name.toList == lowerL q.toList) = false := by
    rw [beq_eq_false_iff_ne]
    exact hpre a ha
  simp only [nameEqCI, hb]
  rfl

theorem searchMovies_exact_witness :
    lowerL (sampleMovie "Inception" "" "").movie_name.toList
        = lowerL "inception".toList ∧
    searchMovies ([sampleMovie "Alien" "" ""] ++
        sampleMovie "Inception" "" "" :: [sampleMovie "INCEPTION" "" ""]) "inception"
      = [sampleMovie "Inception" "" ""] :=
  ⟨by decide, searchMovies_exact _ _ _ _ (by decide) (by decide)⟩

theorem searchMovies_exact_of_mem (movies : List Movie) (q : String)
    (h : ∃ x ∈ movies, nameEqCI x q = true) :
    ∃ m ∈ movies, nameEqCI m q = true ∧ searchMovies movies q = [m] := by
  cases hf : movies.find? (fun x => nameEqCI x q) with
  | none =>
    rw [List.find?_eq_none] at hf
    obtain ⟨x, hx, hpx⟩ := h
    exact absurd hpx (hf x hx)
  | some m =>
    have h1 := List.mem_of_find?_eq_some hf
    have h2 := List.find?_some hf
    exact ⟨m, h1, h2, searchMovies_of_find _ _ _ hf⟩

/-- C5 counterexample: with a catalog holding records titled `"Matrix"` and
`"The Matrix Reloaded"`, the query `"Matrix"` does not return both records,
contrary to the claim: the exact-title shortcut returns the `"Matrix"`
record alone. -/
theorem searchMovies_matrix_cex :
    searchMovies [sampleMovie "Matrix" "" "", sampleMovie "The Matrix Reloaded" "" ""]
        "Matrix"
      = [sampleMovie "Matrix" "" ""] ∧
    sampleMovie "The Matrix Reloaded" "" "" ∉
      searchMovies [sampleMovie "Matrix" "" "", sampleMovie "The Matrix Reloaded" "" ""]
        "Matrix" := by
  constructor
  · decide
  · decide

/-- C5 (amended): in a catalog containing records titled `"Matrix"` and
`"The Matrix Reloaded"`, the query `"Matrix"` triggers the exact-title
shortcut: the result is the singleton of the first record whose title
case-insensitively equals `"Matrix"`, and the `"The Matrix Reloaded"`
record is not returned. -/
theorem searchMovies_matrix (M : List Movie) (mM mR : Movie)
    (hM : mM ∈ M) (hMn : mM.movie_name = "Matrix")
    (hR : mR ∈ M) (hRn : mR.movie_name = "The Matrix Reloaded") :
    ∃ m ∈ M, nameEqCI m "Matrix" = true ∧ searchMovies M "Matrix" = [m] ∧
      mR ∉ searchMovies M "Matrix" := by
  obtain ⟨m, hmem, hci, heq⟩ :=
    searchMovies_exact_of_mem M "Matrix" ⟨mM, hM, by rw [nameEqCI, hMn]; decide⟩
  refine ⟨m, hmem, hci, heq, ?_⟩
  rw [heq]
  simp only [List.mem_singleton]
  intro heq2
  rw [← heq2, nameEqCI, hRn] at hci
  exact absurd hci (by decide)

theorem searchMovies_matrix_witness :
    sampleMovie "Matrix" "" "" ∈
        [sampleMovie "Matrix" "" "", sampleMovie "The Matrix Reloaded" "" ""] ∧
    ∃ m ∈ [sampleMovie "Matrix" "" "", sampleMovie "The Matrix Reloaded" "" ""],
      nameEqCI m "Matrix" = true ∧
      searchMovies [sampleMovie "Matrix" "" "", sampleMovie "The Matrix Reloaded" "" ""]
          "Matrix" = [m] ∧
      sampleMovie "The Matrix Reloaded" "" "" ∉
        searchMovies [sampleMovie "Matrix" "" "", sampleMovie "The Matrix Reloaded" "" ""]
          "Matrix" :=
  ⟨by decide,
    searchMovies_matrix
      [sampleMovie "Matrix" "" "", sampleMovie "The Matrix Reloaded" "" ""]
      (sampleMovie "Matrix" "" "") (sampleMovie "The Matrix Reloaded" "" "")
      (by decide) rfl (by decide) rfl⟩

theorem titleLe_iff (v : String) (a b : Movie) :
    titleLe v a b = true ↔ titleOrdered v a b := by
  unfold titleLe titleCmp titleOrdered titleRank
  by_cases ha : lowerL a.movie_name.data = lowerL v.data <;>
    by_cases hb : lowerL b.movie_name.data = lowerL v.data <;>
      simp [String.toList, ha, hb] <;> omega

theorem titleLe_trans (v : String) (a b c : Movie) :
    titleLe v a b = true → titleLe v b c = true → titleLe v a c = true := by
  rw [titleLe_iff, titleLe_iff, titleLe_iff]
  unfold titleOrdered titleRank
  by_cases ha : lowerL a.movie_name.data = lowerL v.data <;>
    by_cases hb : lowerL b.movie_name.data = lowerL v.data <;>
      by_cases hc : lowerL c.movie_name.data = lowerL v.data <;>
        simp [String.toList, ha, hb, hc] <;> omega

theorem titleLe_total (v : String) (a b : Movie) :
    (titleLe v a b || titleLe v b a) = true := by
  rw [Bool.or_eq_true, titleLe_iff, titleLe_iff]
  unfold titleOrdered titleRank
  by_cases ha : lowerL a.movie_name.data = lowerL v.data <;>
    by_cases hb : lowerL b.movie_name.data = lowerL v.data <;>
      simp [String.toList, ha, hb] <;> omega

/-- C4 (amended): when no record's title case-insensitively equals the
query and the parsed filter set is exactly one `movie_name` entry whose
value is non-empty, `searchMovies` returns exactly the records whose title
case-insensitively contains the value, ordered with exact title matches
before partial ones and, within a match class, by ascending title length. -/
theorem searchMovies_title (movies : List Movie) (q v : String)
    (hex : ∀ m ∈ movies, lowerL m.movie_name.toList ≠ lowerL q.toList)
    (hfs : parseUserQuery q = singletonFS .movie_name v)
    (hv : v ≠ "") :
    (searchMovies movies q).Perm
      (movies.filter fun m =>
        includesL (lowerL m.movie_name.toList) (lowerL v.toList)) ∧
    (searchMovies movies q).Pairwise (titleOrdered v) := by
  have hfind : movies.find? (fun m => nameEqCI m q) = none := by
    rw [List.find?_eq_none]
    intro x hx hcon
    exact hex x hx (by simpa [nameEqCI] using hcon)
  have hres : searchMovies movies q
      = (movies.filter fun m =>
          includesL (lowerL m.movie_name.toList) (lowerL v.toList)).mergeSort
          (fun a b => titleLe v a b) := by
    have hA : singletonFS MovieField.movie_name v MovieField.actors = none := rfl
    have hN : singletonFS MovieField.movie_name v MovieField.movie_name = some v := rfl
    have hK : countKeys (singletonFS MovieField.movie_name v) = 1 := rfl
    have hveq : (v == "") = false := beq_eq_false_iff_ne.mpr hv
    unfold searchMovies
    rw [hfind, hfs]
    simp only [hA, hN, hK, optTruthy, hveq, Bool.not_false, Option.getD_some]
    rfl
  refine ⟨?_, ?_⟩
  · rw [hres]
    exact List.mergeSort_perm _ _
  · rw [hres]
    have hp := List.sorted_mergeSort (titleLe_trans v) (titleLe_total v)
      (movies.filter fun m =>
        includesL (lowerL m.movie_name.toList) (lowerL v.toList))
    exact hp.imp fun hab => (titleLe_iff v _ _).1 hab

theorem searchMovies_title_witness :
    parseUserQuery "movie Batman" = singletonFS .movie_name "Batman" ∧
    ((searchMovies [sampleMovie "Batman Returns" "" "", sampleMovie "Batman" "" "",
        sampleMovie "Alien" "" ""] "movie Batman").Perm
      ([sampleMovie "Batman Returns" "" "", sampleMovie "Batman" "" "",
        sampleMovie "Alien" "" ""].filter fun m =>
          includesL (lowerL m.movie_name.toList) (lowerL "Batman".toList)) ∧
    (searchMovies [sampleMovie "Batman Returns" "" "", sampleMovie "Batman" "" "",
        sampleMovie "Alien" "" ""] "movie Batman").Pairwise (titleOrdered "Batman")) :=
  ⟨by funext f; cases f <;> decide,
    searchMovies_title
      [sampleMovie "Batman Returns" "" "", sampleMovie "Batman" "" "",
        sampleMovie "Alien" "" ""]
      "movie Batman" "Batman"
      (by decide) (by funext f; cases f <;> decide) (by decide)⟩

/-- C4 counterexample: for the query `"film "` the title extractor captures
a single space, so the parsed filter set is exactly one `movie_name` entry
with the empty value; the claim's hypotheses hold, yet the code skips the
ranked title branch (the entry is falsy) and returns the general-path
result in input order, violating the claimed length ordering. -/
theorem searchMovies_title_cex :
    parseUserQuery "film " = singletonFS .movie_name "" ∧
    (∀ m ∈ [sampleMovie "ZZZZ" "" "", sampleMovie "A" "" ""],
      lowerL m.movie_name.toList ≠ lowerL "film ".toList) ∧
    searchMovies [sampleMovie "ZZZZ" "" "", sampleMovie "A" "" ""] "film "
      = [sampleMovie "ZZZZ" "" "", sampleMovie "A" "" ""] ∧
    includesL (lowerL (sampleMovie "ZZZZ" "" "").movie_name.toList)
        (lowerL "".toList) = true ∧
    includesL (lowerL (sampleMovie "A" "" "").movie_name.toList)
        (lowerL "".toList) = true ∧
    ¬ titleOrdered "" (sampleMovie "ZZZZ" "" "") (sampleMovie "A" "" "") := by
  refine ⟨by funext f; cases f <;> decide, by decide, by decide, by decide, by decide, ?_⟩
  unfold titleOrdered titleRank
  decide

theorem toLower_of_ws {c : Char} (h : wsChar c = true) : c.toLower = c := by
  have h2 : c.toNat = 32 ∨ (9 ≤ c.toNat ∧ c.toNat ≤ 13) := by
    simp only [wsChar, Bool.or_eq_true, beq_iff_eq, Bool.and_eq_true,
      decide_eq_true_eq] at h
    exact h
  simp only [Char.toLower]
  rw [if_neg (by omega)]

theorem isPrefixOf_cons_ne {a c : Char} {as rest : List Char} (h : a ≠ c) :
    (a :: as).isPrefixOf (c :: rest) = false := by
  show (a == c && as.isPrefixOf rest) = false
  rw [beq_eq_false_iff_ne.mpr h]
  rfl

theorem nil_isPrefixOf (l : List Char) : List.isPrefixOf [] l = true := by
  cases l <;> rfl

theorem isPrefixOf_append_ws :
    ∀ (w u z : List Char), (∀ c ∈ w, wsChar c = false) →
      (∀ c ∈ z, wsChar c = true) → w.isPrefixOf (u ++ z) = w.isPrefixOf u
  | [], u, z, _, _ => by rw [nil_isPrefixOf, nil_isPrefixOf]
  | a :: as, [], z, hw, hz => by
    cases z with
    | nil => rfl
    | cons c z2 =>
      have hne : a ≠ c := by
        intro e
        have hh := hw a (by simp)
        rw [e, hz c (by simp)] at hh
        cases hh
      show (a :: as).isPrefixOf (c :: z2) = (a :: as).isPrefixOf []
      rw [isPrefixOf_cons_ne hne]
      rfl
  | a :: as, b :: u2, z, hw, hz => by
    show (a == b && as.isPrefixOf (u2 ++ z)) = (a == b && as.isPrefixOf u2)
    rw [isPrefixOf_append_ws as u2 z (fun c hc => hw c (by simp [hc])) hz]

theorem includesL_ws_all :
    ∀ (z : List Char) (wh : Char) (wt : List Char), (∀ c ∈ z, wsChar c = true) →
      wsChar wh = false → includesL z (wh :: wt) = false
  | [], _, _, _, _ => rfl
  | c :: z2, wh, wt, hz, hwh => by
    show ((wh :: wt).isPrefixOf (c :: z2) || includesL z2 (wh :: wt)) = false
    have hne : wh ≠ c := by
      intro e
      rw [e, hz c (by simp)] at hwh
      cases hwh
    rw [isPrefixOf_cons_ne hne,
      includesL_ws_all z2 wh wt (fun d hd => hz d (by simp [hd])) hwh]
    rfl

theorem includesL_ws_front :
    ∀ (x y : List Char) (wh : Char) (wt : List Char), (∀ c ∈ x, wsChar c = true) →
      wsChar wh = false → includesL (x ++ y) (wh :: wt) = includesL y (wh :: wt)
  | [], _, _, _, _, _ => rfl
  | c :: x2, y, wh, wt, hx, hwh => by
    show ((wh :: wt).isPrefixOf (c :: (x2 ++ y)) || includesL (x2 ++ y) (wh :: wt))
        = includesL y (wh :: wt)
    have hne : wh ≠ c := by
      intro e
      rw [e, hx c (by simp)] at hwh
      cases hwh
    rw [isPrefixOf_cons_ne hne,
      includesL_ws_front x2 y wh wt (fun d hd => hx d (by simp [hd])) hwh]
    rfl

theorem includesL_ws_suffix :
    ∀ (u z : List Char) (wh : Char) (wt : List Char),
      (∀ c ∈ wh :: wt, wsChar c = false) → (∀ c ∈ z, wsChar c = true) →
      includesL (u ++ z) (wh :: wt) = includesL u (wh :: wt)
  | [], z, wh, wt, hw, hz => by
    show includesL z (wh :: wt) = includesL [] (wh :: wt)
    rw [includesL_ws_all z wh wt hz (hw wh (by simp))]
    rfl
  | c :: u2, z, wh, wt, hw, hz => by
    show ((wh :: wt).isPrefixOf (c :: (u2 ++ z)) || includesL (u2 ++ z) (wh :: wt))
        = ((wh :: wt).isPrefixOf (c :: u2) || includesL u2 (wh :: wt))
    rw [show c :: (u2 ++ z) = (c :: u2) ++ z from rfl,
      isPrefixOf_append_ws (wh :: wt) (c :: u2) z hw hz,
      includesL_ws_suffix u2 z wh wt hw hz]

theorem trimL_decomp (l : List Char) :
    ∃ x z, l = x ++ (trimL l ++ z) ∧ (∀ c ∈ x, wsChar c = true) ∧
      (∀ c ∈ z, wsChar c = true) := by
  refine ⟨l.takeWhile wsChar,
    ((l.dropWhile wsChar).reverse.takeWhile wsChar).reverse, ?_, ?_, ?_⟩
  · have h3 : ((l.dropWhile wsChar).reverse.dropWhile wsChar).reverse
        ++ ((l.dropWhile wsChar).reverse.takeWhile wsChar).reverse
        = l.dropWhile wsChar := by
      have h2 := congrArg List.reverse
        (List.takeWhile_append_dropWhile wsChar (l.dropWhile wsChar).reverse)
      rwa [List.reverse_append, List.reverse_reverse] at h2
    calc l = l.takeWhile wsChar ++ l.dropWhile wsChar :=
        (List.takeWhile_append_dropWhile wsChar l).symm
      _ = l.takeWhile wsChar
          ++ (trimL l ++ ((l.dropWhile wsChar).reverse.takeWhile wsChar).reverse) := by
        simp only [trimL]
        rw [h3]
  · intro c hc
    exact List.mem_takeWhile_imp hc
  · intro c hc
    rw [List.mem_reverse] at hc
    exact List.mem_takeWhile_imp hc

theorem includesL_lower_trim (u w : List Char)
    (hw : ∀ c ∈ w, wsChar c = false) (hne : w ≠ []) :
    includesL (lowerL (trimL u)) w = includesL (lowerL u) w := by
  obtain ⟨x, z, hdec, hx, hz⟩ := trimL_decomp u
  cases w with
  | nil => exact absurd rfl hne
  | cons wh wt =>
    have hwh : wsChar wh = false := hw wh (by simp)
    conv_rhs => rw [hdec]
    simp only [lowerL, List.map_append]
    have hx2 : ∀ c ∈ x.map Char.toLower, wsChar c = true := by
      intro c hc
      obtain ⟨d, hd, rfl⟩ := List.mem_map.mp hc
      rw [toLower_of_ws (hx d hd)]
      exact hx d hd
    have hz2 : ∀ c ∈ z.map Char.toLower, wsChar c = true := by
      intro c hc
      obtain ⟨d, hd, rfl⟩ := List.mem_map.mp hc
      rw [toLower_of_ws (hz d hd)]
      exact hz d hd
    rw [includesL_ws_front (x.map Char.toLower) _ wh wt hx2 hwh,
      includesL_ws_suffix ((trimL u).map Char.toLower) (z.map Char.toLower)
        wh wt hw hz2]


theorem list_any_congr {α : Type} {p q : α → Bool} :
    ∀ {l : List α}, (∀ x ∈ l, p x = q x) → l.any p = l.any q
  | [], _ => rfl
  | x :: xs, h => by
    simp only [List.any_cons]
    rw [h x (by simp), list_any_congr fun y hy => h y (by simp [hy])]

theorem commonGenres_ok :
    ∀ s ∈ commonGenres, s.toList ≠ [] ∧ ∀ c ∈ s.toList, wsChar c = false := by
  decide

/-- C6: when none of the eight extractors produced a field and the trimmed
query is non-empty, `parseUserQuery` returns a single entry holding the
trimmed query: a genre entry when the query case-insensitively contains a
word of the fixed genre vocabulary, a movie title entry otherwise. -/
theorem parseUserQuery_fallback (q : String)
    (h1 : runExtractor genreRE q = none) (h2 : runExtractor titleRE q = none)
    (h3 : runExtractor directorRE q = none) (h4 : runExtractor actorRE q = none)
    (h5 : runExtractor yearRE q = none) (h6 : runExtractor countryRE q = none)
    (h7 : runExtractor languageRE q = none) (h8 : runExtractor keywordRE q = none)
    (h9 : trimL q.toList ≠ []) :
    parseUserQuery q =
      singletonFS
        (if commonGenres.any fun s => includesL (lowerL q.toList) s.toList then
          MovieField.genre
        else MovieField.movie_name)
        (String.mk (trimL q.toList)) := by
  have hterm : (String.mk (trimL q.toList) == "") = false := by
    rw [beq_eq_false_iff_ne]
    intro he
    exact h9 (congrArg String.data he)
  have hvoc : (commonGenres.any fun s =>
        includesL (lowerL (String.mk (trimL q.toList)).toList) s.toList)
      = (commonGenres.any fun s => includesL (lowerL q.toList) s.toList) := by
    apply list_any_congr
    intro s hs
    obtain ⟨hne, hws⟩ := commonGenres_ok s hs
    show includesL (lowerL (trimL q.toList)) s.toList
      = includesL (lowerL q.toList) s.toList
    exact includesL_lower_trim q.toList s.toList hws hne
  have hG : parseUserQuery q MovieField.genre
      = (if commonGenres.any fun s =>
            includesL (lowerL (String.mk (trimL q.toList)).toList) s.toList then
          some (String.mk (trimL q.toList)) else none) := by
    simp only [parseUserQuery, h1, h2, h3, h4, h5, h6, h7, h8,
      Option.isNone_none, Bool.and_self, Bool.true_and, Bool.and_true,
      hterm, Bool.not_false]
  have hT : parseUserQuery q MovieField.movie_name
      = (if commonGenres.any fun s =>
            includesL (lowerL (String.mk (trimL q.toList)).toList) s.toList then
          none else some (String.mk (trimL q.toList))) := by
    simp only [parseUserQuery, h1, h2, h3, h4, h5, h6, h7, h8,
      Option.isNone_none, Bool.and_self, Bool.true_and, Bool.and_true,
      hterm, Bool.not_false]
    cases hB : (commonGenres.any fun s =>
        includesL (lowerL (String.mk (trimL q.toList)).toList) s.toList) with
    | true => simp [hB]
    | false => simp [hB]
  rw [hvoc] at hG hT
  by_cases hC : (commonGenres.any fun s => includesL (lowerL q.toList) s.toList)
      = true
  · rw [if_pos hC]
    funext f
    cases f with
    | genre => rw [hG, if_pos hC]; simp [singletonFS]
    | movie_name => rw [hT, if_pos hC]; simp [singletonFS]
    | director_name =>
      show runExtractor directorRE q = _
      rw [h3]
      simp [singletonFS]
    | actors =>
      show runExtractor actorRE q = _
      rw [h4]
      simp [singletonFS]
    | release_year =>
      show runExtractor yearRE q = _
      rw [h5]
      simp [singletonFS]
    | country =>
      show runExtractor countryRE q = _
      rw [h6]
      simp [singletonFS]
    | language =>
      show runExtractor languageRE q = _
      rw [h7]
      simp [singletonFS]
    | plot_keyword =>
      show runExtractor keywordRE q = _
      rw [h8]
      simp [singletonFS]
    | movie_id => show (none : Option String) = _; simp [singletonFS]
    | movie_duration => show (none : Option String) = _; simp [singletonFS]
    | budget => show (none : Option String) = _; simp [singletonFS]
    | imdb_score => show (none : Option String) = _; simp [singletonFS]
    | movie_certification => show (none : Option String) = _; simp [singletonFS]
    | producer_name => show (none : Option String) = _; simp [singletonFS]
    | award_name => show (none : Option String) = _; simp [singletonFS]
    | reviewer_name => show (none : Option String) = _; simp [singletonFS]
    | songs => show (none : Option String) = _; simp [singletonFS]
    | poster_url => show (none : Option String) = _; simp [singletonFS]
  · rw [if_neg hC]
    funext f
    cases f with
    | genre => rw [hG, if_neg hC]; simp [singletonFS]
    | movie_name => rw [hT, if_neg hC]; simp [singletonFS]
    | director_name =>
      show runExtractor directorRE q = _
      rw [h3]
      simp [singletonFS]
    | actors =>
      show runExtractor actorRE q = _
      rw [h4]
      simp [singletonFS]
    | release_year =>
      show runExtractor yearRE q = _
      rw [h5]
      simp [singletonFS]
    | country =>
      show runExtractor countryRE q = _
      rw [h6]
      simp [singletonFS]
    | language =>
      show runExtractor languageRE q = _
      rw [h7]
      simp [singletonFS]
    | plot_keyword =>
      show runExtractor keywordRE q = _
      rw [h8]
      simp [singletonFS]
    | movie_id => show (none : Option String) = _; simp [singletonFS]
    | movie_duration => show (none : Option String) = _; simp [singletonFS]
    | budget => show (none : Option String) = _; simp [singletonFS]
    | imdb_score => show (none : Option String) = _; simp [singletonFS]
    | movie_certification => show (none : Option String) = _; simp [singletonFS]
    | producer_name => show (none : Option String) = _; simp [singletonFS]
    | award_name => show (none : Option String) = _; simp [singletonFS]
    | reviewer_name => show (none : Option String) = _; simp [singletonFS]
    | songs => show (none : Option String) = _; simp [singletonFS]
    | poster_url => show (none : Option String) = _; simp [singletonFS]

theorem parseUserQuery_fallback_witness :
    runExtractor genreRE "thriller" = none ∧
    runExtractor titleRE "thriller" = none ∧
    trimL "thriller".toList ≠ [] ∧
    parseUserQuery "thriller"
      = singletonFS .genre (String.mk (trimL "thriller".toList)) ∧
    parseUserQuery "Whiplash"
      = singletonFS .movie_name (String.mk (trimL "Whiplash".toList)) := by
  refine ⟨by decide, by decide, by decide, ?_, ?_⟩
  · have h := parseUserQuery_fallback "thriller" (by decide) (by decide)
      (by decide) (by decide) (by decide) (by decide) (by decide) (by decide)
      (by decide)
    have hCeq : (if commonGenres.any fun s =>
          includesL (lowerL "thriller".toList) s.toList then
        MovieField.genre else MovieField.movie_name) = MovieField.genre := by
      decide
    rw [h, hCeq]
  · have h := parseUserQuery_fallback "Whiplash" (by decide) (by decide)
      (by decide) (by decide) (by decide) (by decide) (by decide) (by decide)
      (by decide)
    have hCeq : (if commonGenres.any fun s =>
          includesL (lowerL "Whiplash".toList) s.toList then
        MovieField.genre else MovieField.movie_name) = MovieField.movie_name := by
      decide
    rw [h, hCeq]

theorem mAll_grpFree : ∀ (r : RE), grpFree r = true → ∀ (cs : List Char),
    ∀ e ∈ mAll r cs, e.2 = none
  | .eps, _, cs, e, he => by
    simp only [mAll, List.mem_singleton] at he
    rw [he]
  | .lit l, _, cs, e, he => by
    simp only [mAll] at he
    cases h : stripLitCI l cs with
    | some rest =>
      rw [h] at he
      simp only [List.mem_singleton] at he
      rw [he]
    | none =>
      rw [h] at he
      simp at he
  | .cls p, _, cs, e, he => by
    cases cs with
    | nil => simp [mAll] at he
    | cons c rest =>
      simp only [mAll] at he
      by_cases hp : p c = true
      · simp only [if_pos hp, List.mem_singleton] at he
        rw [he]
      · simp [if_neg hp] at he
  | .seq a b, h, cs, e, he => by
    simp only [grpFree, Bool.and_eq_true] at h
    simp only [mAll, List.mem_flatMap, List.mem_map] at he
    obtain ⟨e1, he1, e2, he2, hee⟩ := he
    rw [← hee]
    show (e1.2 <|> e2.2) = none
    rw [mAll_grpFree a h.1 cs e1 he1, mAll_grpFree b h.2 e1.1 e2 he2]
    rfl
  | .alt a b, h, cs, e, he => by
    simp only [grpFree, Bool.and_eq_true] at h
    simp only [mAll, List.mem_append] at he
    rcases he with he | he
    · exact mAll_grpFree a h.1 cs e he
    · exact mAll_grpFree b h.2 cs e he
  | .opt a, h, cs, e, he => by
    simp only [mAll, List.mem_append, List.mem_singleton] at he
    rcases he with he | he
    · exact mAll_grpFree a h cs e he
    · rw [he]
  | .starCls p, _, cs, e, he => by
    simp only [mAll, List.mem_map] at he
    obtain ⟨i, _, hee⟩ := he
    rw [← hee]
  | .plusCls p, _, cs, e, he => by
    simp only [mAll, List.mem_map] at he
    obtain ⟨i, _, hee⟩ := he
    rw [← hee]
  | .repCls n p, _, cs, e, he => by
    simp only [mAll] at he
    by_cases hn : n ≤ maxRun p cs
    · simp only [if_pos hn, List.mem_singleton] at he
      rw [he]
    · simp [if_neg hn] at he
  | .grp a, h, cs, e, he => by
    simp [grpFree] at h

theorem maxRun_le_length (p : Char → Bool) (cs : List Char) :
    maxRun p cs ≤ cs.length := by
  unfold maxRun
  induction cs with
  | nil => simp
  | cons c t ih =>
    rw [List.takeWhile_cons]
    by_cases h : p c = true
    · simp only [if_pos h, List.length_cons]
      omega
    · simp [if_neg h]

theorem mAll_grp_rep_cap (n : Nat) (p : Char → Bool) (cs : List Char) :
    ∀ e ∈ mAll (.grp (.repCls n p)) cs, ∀ c, e.2 = some c →
      c.length = n ∧ ∀ x ∈ c, p x = true := by
  intro e he c hc
  simp only [mAll, List.mem_map] at he
  obtain ⟨e1, he1, hee⟩ := he
  by_cases hn : n ≤ maxRun p cs
  · rw [if_pos hn] at he1
    simp only [List.mem_singleton] at he1
    subst he1
    rw [← hee] at hc
    simp only at hc
    have hlen : n ≤ cs.length := le_trans hn (maxRun_le_length p cs)
    have htake : cs.length - (cs.drop n).length = n := by
      rw [List.length_drop]
      omega
    rw [htake] at hc
    injection hc with hc2
    rw [← hc2]
    constructor
    · rw [List.length_take]
      omega
    · intro x hx
      have hrun : n ≤ (cs.takeWhile p).length := hn
      have hsplit : cs.take n = (cs.takeWhile p).take n := by
        conv_lhs => rw [← List.takeWhile_append_dropWhile p cs]
        rw [List.take_append_of_le_length hrun]
      rw [hsplit] at hx
      exact List.mem_takeWhile_imp (List.take_subset n _ hx)
  · rw [if_neg hn] at he1
    simp at he1

theorem mAll_seq_cap {a b : RE} (ha : grpFree a = true)
    {P : List Char → Prop}
    (hb : ∀ cs e, e ∈ mAll b cs → ∀ c, e.2 = some c → P c) :
    ∀ cs e, e ∈ mAll (.seq a b) cs → ∀ c, e.2 = some c → P c := by
  intro cs e he c hc
  simp only [mAll, List.mem_flatMap, List.mem_map] at he
  obtain ⟨e1, he1, e2, he2, hee⟩ := he
  rw [← hee] at hc
  simp only at hc
  rw [mAll_grpFree a ha cs e1 he1] at hc
  simp only [Option.none_orElse] at hc
  exact hb e1.1 e2 he2 c hc

theorem head?_mem {α : Type} {l : List α} {e : α} (h : l.head? = some e) :
    e ∈ l := by
  cases l with
  | nil => cases h
  | cons a t =>
    injection h with h2
    rw [← h2]
    exact List.mem_cons_self a t

theorem searchFrom_cap {r : RE} {P : List Char → Prop}
    (hr : ∀ cs e, e ∈ mAll r cs → ∀ c, e.2 = some c → P c) :
    ∀ (cs c : List Char), searchFrom r cs = some (some c) → P c
  | [], c, h => by
    simp only [searchFrom] at h
    cases hh : (mAll r []).head? with
    | none =>
      rw [hh] at h
      cases h
    | some e =>
      simp only [hh] at h
      injection h with h2
      exact hr [] e (head?_mem hh) c h2
  | a :: t, c, h => by
    simp only [searchFrom] at h
    cases hh : (mAll r (a :: t)).head? with
    | none =>
      simp only [hh] at h
      exact searchFrom_cap hr t c h
    | some e =>
      simp only [hh] at h
      injection h with h2
      exact hr (a :: t) e (head?_mem hh) c h2

theorem yearRE_cap :
    ∀ cs e, e ∈ mAll yearRE cs → ∀ c, e.2 = some c →
      c.length = 4 ∧ ∀ x ∈ c, digitCh x = true := by
  unfold yearRE
  exact mAll_seq_cap (by decide) (mAll_seq_cap (by decide)
    (mAll_seq_cap (by decide) (mAll_seq_cap (by decide)
      (mAll_grp_rep_cap 4 digitCh))))

theorem wsChar_of_digit {c : Char} (h : digitCh c = true) : wsChar c = false := by
  simp only [digitCh, Bool.and_eq_true, decide_eq_true_eq] at h
  simp only [wsChar, Bool.or_eq_false_iff, beq_eq_false_iff_ne, ne_eq,
    Bool.and_eq_false_iff, decide_eq_false_iff_not, not_le]
  omega

theorem dropWhile_of_none {l : List Char} (h : ∀ c ∈ l, wsChar c = false) :
    l.dropWhile wsChar = l := by
  cases l with
  | nil => rfl
  | cons a t =>
    rw [List.dropWhile_cons, if_neg]
    simp [h a (List.mem_cons_self a t)]

theorem trimL_of_no_ws {l : List Char} (h : ∀ c ∈ l, wsChar c = false) :
    trimL l = l := by
  have h2 : ∀ c ∈ l.reverse, wsChar c = false :=
    fun c hc => h c (List.mem_reverse.mp hc)
  unfold trimL
  rw [dropWhile_of_none h, dropWhile_of_none h2, List.reverse_reverse]

theorem runExtractor_year_len {q v : String}
    (h : runExtractor yearRE q = some v) : v.toList.length = 4 := by
  unfold runExtractor at h
  cases hs : searchFrom yearRE q.toList with
  | none =>
    rw [hs] at h
    cases h
  | some o =>
    cases o with
    | none =>
      simp only [hs] at h
      cases h
    | some cap =>
      simp only [hs] at h
      by_cases hc : cap.isEmpty = true
      · rw [if_pos hc] at h
        cases h
      · rw [if_neg hc] at h
        injection h with h2
        obtain ⟨hlen, hdig⟩ := searchFrom_cap yearRE_cap q.toList cap hs
        have hnws : ∀ c ∈ cap, wsChar c = false :=
          fun c hc2 => wsChar_of_digit (hdig c hc2)
        rw [← h2]
        show (trimL cap).length = 4
        rw [trimL_of_no_ws hnws]
        exact hlen

theorem parse_release_year_len {q v : String}
    (h : parseUserQuery q MovieField.release_year = some v) :
    v.toList.length = 4 :=
  runExtractor_year_len h

theorem toList_ne_nil {v : String} (h : v ≠ "") : v.toList ≠ [] := by
  intro he
  apply h
  cases v with
  | mk d =>
    have hd : d = [] := he
    rw [hd]

theorem isEmpty_lowerL_of_ne {v : String} (hv : v ≠ "") :
    (lowerL v.toList).isEmpty = false := by
  have hne : v.toList ≠ [] := toList_ne_nil hv
  cases hl : v.toList with
  | nil => exact absurd hl hne
  | cons a t => rfl

theorem matchesActorStr {m : Movie} {f : MovieField} {v s : String}
    (hget : m.get f = .str s) :
    matchesFilterActor m f v = matchesFilter m f v := by
  unfold matchesFilterActor matchesFilter
  by_cases hv : (v == "") = true
  · rw [if_pos hv, if_pos hv]
  · rw [if_neg hv, if_neg hv]
    simp only [hget]
    have hv2 : v ≠ "" := by simpa using hv
    by_cases hs : s = ""
    · subst hs
      have hfal : (JsVal.str "").falsy = true := rfl
      rw [if_pos hfal]
      have hemp := isEmpty_lowerL_of_ne hv2
      by_cases hf : (f == MovieField.genre || f == MovieField.plot_keyword) = true
      · rw [if_pos hf]
        show false = ((lowerL v.toList).isEmpty || false)
        rw [hemp]
        rfl
      · rw [if_neg hf]
        show false = (lowerL v.toList).isEmpty
        rw [hemp]
    · have hfal : (JsVal.str s).falsy = false := by
        simp [JsVal.falsy, hs]
      rw [if_neg (by simp [hfal])]

theorem matchesActorYear {m : Movie} {v : String} (hlen : v.toList.length = 4) :
    matchesFilterActor m .release_year v = matchesFilter m .release_year v := by
  have hv : (v == "") = false := by
    rw [beq_eq_false_iff_ne]
    intro he
    rw [he] at hlen
    exact absurd hlen (by decide)
  unfold matchesFilterActor matchesFilter
  simp only [hv, Bool.false_eq_true, if_false]
  have hget : m.get MovieField.release_year = JsVal.num m.release_year := rfl
  simp only [hget]
  by_cases hy : m.release_year = 0
  · rw [hy]
    have hfal : (JsVal.num 0).falsy = true := rfl
    rw [if_pos hfal]
    show false = includesL (lowerL (JsVal.num 0).toStr.toList) (lowerL v.toList)
    have h0 : (JsVal.num 0).toStr = "0" := by decide
    rw [h0]
    cases hinc : includesL (lowerL "0".toList) (lowerL v.toList) with
    | false => rfl
    | true =>
      have hle := includesL_length hinc
      simp only [lowerL, List.length_map] at hle
      rw [hlen] at hle
      exact absurd hle (by decide)
  · have hfal : (JsVal.num m.release_year).falsy = false := by
      simp [JsVal.falsy, hy]
    rw [if_neg (by simp [hfal])]

theorem matchesFilterActor_eq {q : String} (m : Movie) (f : MovieField)
    (v : String) (h : parseUserQuery q f = some v) :
    matchesFilterActor m f v = matchesFilter m f v := by
  cases f with
  | genre => exact matchesActorStr rfl
  | movie_name => exact matchesActorStr rfl
  | director_name => exact matchesActorStr rfl
  | actors => exact matchesActorStr rfl
  | country => exact matchesActorStr rfl
  | language => exact matchesActorStr rfl
  | plot_keyword => exact matchesActorStr rfl
  | release_year => exact matchesActorYear (parse_release_year_len h)
  | movie_id => exact absurd (show (none : Option String) = some v from h) (by simp)
  | movie_duration =>
    exact absurd (show (none : Option String) = some v from h) (by simp)
  | budget => exact absurd (show (none : Option String) = some v from h) (by simp)
  | imdb_score =>
    exact absurd (show (none : Option String) = some v from h) (by simp)
  | movie_certification =>
    exact absurd (show (none : Option String) = some v from h) (by simp)
  | producer_name =>
    exact absurd (show (none : Option String) = some v from h) (by simp)
  | award_name =>
    exact absurd (show (none : Option String) = some v from h) (by simp)
  | reviewer_name =>
    exact absurd (show (none : Option String) = some v from h) (by simp)
  | songs => exact absurd (show (none : Option String) = some v from h) (by simp)
  | poster_url =>
    exact absurd (show (none : Option String) = some v from h) (by simp)

theorem optTruthy_isSome {o : Option String} (h : optTruthy o = true) :
    o.isSome = true := by
  cases o with
  | none => cases h
  | some s => rfl

theorem countKeys_ne_one {F : FilterSet}
    (h1 : (F MovieField.movie_name).isSome = true)
    (h2 : (F MovieField.actors).isSome = true) :
    (countKeys F == 1) = false := by
  rw [beq_eq_false_iff_ne]
  unfold countKeys
  have m1 : MovieField.movie_name ∈ allFields.filter fun f => (F f).isSome := by
    rw [List.mem_filter]
    exact ⟨mem_allFields _, h1⟩
  have m2 : MovieField.actors ∈ allFields.filter fun f => (F f).isSome := by
    rw [List.mem_filter]
    exact ⟨mem_allFields _, h2⟩
  intro hlen
  cases hl : allFields.filter (fun f => (F f).isSome) with
  | nil =>
    rw [hl] at m1
    cases m1
  | cons x t =>
    cases t with
    | nil =>
      rw [hl] at m1 m2
      simp only [List.mem_singleton] at m1 m2
      exact absurd (m1.trans m2.symm) (by decide)
    | cons y t2 =>
      rw [hl] at hlen
      simp at hlen

/-- C2: when no record's title case-insensitively equals the query and the
parsed filter set contains an actors entry, `searchMovies` returns exactly
the records of the list that satisfy every remaining filter entry per the
Field Matching Rule and whose actors field case-insensitively contains the
actor filter value, in input order. -/
theorem searchMovies_actor (movies : List Movie) (q : String)
    (hex : ∀ m ∈ movies, lowerL m.movie_name.toList ≠ lowerL q.toList)
    (hact : ((parseUserQuery q) MovieField.actors).isSome = true) :
    (∀ m, m ∈ searchMovies movies q ↔
      m ∈ movies ∧
        SpecMatchesAll m (removeKey (parseUserQuery q) MovieField.actors) ∧
        includesL (lowerL m.actors.toList)
          (lowerL (((parseUserQuery q) MovieField.actors).getD "").toList)
          = true) ∧
    (searchMovies movies q).Sublist movies := by
  have hfind : movies.find? (fun m => nameEqCI m q) = none := by
    rw [List.find?_eq_none]
    intro x hx hcon
    exact hex x hx (by simpa [nameEqCI] using hcon)
  obtain ⟨a, ha⟩ := Option.isSome_iff_exists.mp hact
  by_cases htr : optTruthy ((parseUserQuery q) MovieField.actors) = true
  · have hres : searchMovies movies q = movies.filter (fun m =>
        (allFields.all fun f =>
          match removeKey (parseUserQuery q) MovieField.actors f with
          | none => true
          | some v => matchesFilterActor m f v) &&
        includesL (lowerL m.actors.toList)
          (lowerL (((parseUserQuery q) MovieField.actors).getD "").toList)) := by
      unfold searchMovies
      simp only [hfind]
      rw [if_pos htr]
    rw [hres]
    constructor
    · intro m
      rw [List.mem_filter, Bool.and_eq_true]
      have hsteps : (allFields.all fun f =>
          match removeKey (parseUserQuery q) MovieField.actors f with
          | none => true
          | some v => matchesFilterActor m f v)
          = matchesAllFilters m (removeKey (parseUserQuery q) MovieField.actors) := by
        unfold matchesAllFilters
        apply list_all_congr
        intro f _
        cases hfv : removeKey (parseUserQuery q) MovieField.actors f with
        | none => rfl
        | some v =>
          have hparse : parseUserQuery q f = some v := by
            unfold removeKey at hfv
            by_cases hfa : (f == MovieField.actors) = true
            · rw [if_pos hfa] at hfv
              cases hfv
            · rw [if_neg hfa] at hfv
              exact hfv
          exact matchesFilterActor_eq m f v hparse
      rw [hsteps, matchesAllFilters_iff]
    · exact List.filter_sublist movies
  · have ha2 : a = "" := by
      rw [ha] at htr
      by_contra hne
      exact htr (by simp [optTruthy, hne])
    have ha0 : (parseUserQuery q) MovieField.actors = some "" := by
      rw [ha, ha2]
    have hres : searchMovies movies q = filterMovies movies (parseUserQuery q) := by
      unfold searchMovies
      simp only [hfind]
      rw [if_neg htr, if_neg]
      intro hcc
      rw [Bool.and_eq_true] at hcc
      have hmn := optTruthy_isSome hcc.1
      have hck := countKeys_ne_one hmn (by rw [ha0]; rfl)
      exact absurd hcc.2 (by simp [hck])
    rw [hres]
    constructor
    · intro m
      unfold filterMovies
      rw [List.mem_filter]
      have hB : includesL (lowerL m.actors.toList)
          (lowerL (((parseUserQuery q) MovieField.actors).getD "").toList)
          = true := by
        rw [ha0]
        exact includesL_nil _
      have hAll : matchesAllFilters m (parseUserQuery q)
          = matchesAllFilters m (removeKey (parseUserQuery q) MovieField.actors) := by
        unfold matchesAllFilters
        apply list_all_congr
        intro f _
        by_cases hfa : (f == MovieField.actors) = true
        · have hf2 : f = MovieField.actors := by simpa using hfa
          subst hf2
          simp [ha0, removeKey, matchesFilter_empty]
        · have hfa2 : (f == MovieField.actors) = false := by simpa using hfa
          simp [removeKey, hfa2]
      rw [hAll, matchesAllFilters_iff]
      constructor
      · rintro ⟨hm, hall⟩
        exact ⟨hm, hall, hB⟩
      · rintro ⟨hm, hall, _⟩
        exact ⟨hm, hall⟩
    · exact List.filter_sublist movies

theorem searchMovies_actor_witness :
    ((parseUserQuery "actor Tom") MovieField.actors).isSome = true ∧
    (sampleMovie "M One" "Tom Hanks" "" ∈
        searchMovies [sampleMovie "M One" "Tom Hanks" "",
          sampleMovie "M Two" "Brad Pitt" ""] "actor Tom" ↔
      sampleMovie "M One" "Tom Hanks" "" ∈
          [sampleMovie "M One" "Tom Hanks" "",
            sampleMovie "M Two" "Brad Pitt" ""] ∧
        SpecMatchesAll (sampleMovie "M One" "Tom Hanks" "")
          (removeKey (parseUserQuery "actor Tom") MovieField.actors) ∧
        includesL (lowerL (sampleMovie "M One" "Tom Hanks" "").actors.toList)
          (lowerL (((parseUserQuery "actor Tom") MovieField.actors).getD "").toList)
          = true) ∧
    (searchMovies [sampleMovie "M One" "Tom Hanks" "",
        sampleMovie "M Two" "Brad Pitt" ""] "actor Tom").Sublist
      [sampleMovie "M One" "Tom Hanks" "", sampleMovie "M Two" "Brad Pitt" ""] :=
  ⟨by decide,
    (searchMovies_actor _ _ (by decide) (by decide)).1 _,
    (searchMovies_actor _ _ (by decide) (by decide)).2⟩
